import Mathlib

/-!
# Verification of the project-metadata prebuild script

Shallow embedding of `scripts/prebuild_fetch_project_meta.py`:
the simple list-format parser `parse_projects_yaml`, the HTML-metadata
accumulation handlers of `MetaParser`, the card builder `build_card` with its
URL resolution (`urllib.parse.urljoin`, modelled below), and the per-record
loop body of `main`.  Python strings are modelled as Lean `String`, Python
dicts as insertion-ordered association lists with overwrite-in-place
assignment, and the network as an explicit `fetch` function argument whose
`Except.error` case stands for the caught network exceptions
(`urllib.error.URLError`, `urllib.error.HTTPError`, `TimeoutError`).
-/

/-! ## Python string primitives (ASCII model) -/

/-- Whitespace characters stripped by Python `str.strip` / `rstrip` / `lstrip`
(ASCII subset; the input format and metadata in question are ASCII). -/
def isPySpace (c : Char) : Bool :=
  c == ' ' || c == '\t' || c == '\n' || c == '\r' || c == '\x0b' || c == '\x0c'

/-- Trailing-whitespace removal on character lists. -/
def rstripL (l : List Char) : List Char :=
  (l.reverse.dropWhile isPySpace).reverse

/-- Leading-whitespace removal on character lists. -/
def lstripL (l : List Char) : List Char :=
  l.dropWhile isPySpace

/-- Python `str.rstrip()`. -/
def pyRstrip (s : String) : String := ⟨rstripL s.data⟩

/-- Python `str.lstrip()`. -/
def pyLstrip (s : String) : String := ⟨lstripL s.data⟩

/-- Python `str.strip()`. -/
def pyStrip (s : String) : String := ⟨lstripL (rstripL s.data)⟩

/-- List prefix test, `isPre p l = true` iff `p` is a prefix of `l`. -/
def isPre : List Char → List Char → Bool
  | [], _ => true
  | _ :: _, [] => false
  | a :: as, b :: bs => a == b && isPre as bs

/-- Python `s.startswith(p)`. -/
def pyStartsWith (s p : String) : Bool := isPre p.data s.data

/-- Character membership in a character list. -/
def hasChar : List Char → Char → Bool
  | [], _ => false
  | a :: as, c => a == c || hasChar as c

/-- Python `c in s` for a single-character needle. -/
def pyContains (s : String) (c : Char) : Bool := hasChar s.data c

/-- Python `s[n:]`. -/
def pyDrop (s : String) (n : Nat) : String := ⟨s.data.drop n⟩

/-- Split a character list at the first occurrence of `c`
(the separator is removed). -/
def splitAtChar (l : List Char) (c : Char) : List Char × List Char :=
  (l.takeWhile (fun a => !(a == c)), (l.dropWhile (fun a => !(a == c))).drop 1)

/-- Python `s.split(c, 1)` for a single-character separator that occurs in
`s`: the part before the first `c` and the part after it. -/
def pySplit1 (s : String) (c : Char) : String × String :=
  (⟨(splitAtChar s.data c).1⟩, ⟨(splitAtChar s.data c).2⟩)

/-- ASCII lower-casing of one character (Python `str.lower` on the ASCII
identifiers handled by the script). -/
def lowerChar (c : Char) : Char :=
  if 'A' ≤ c ∧ c ≤ 'Z' then Char.ofNat (c.toNat + 32) else c

/-- Python `str.lower()` (ASCII model). -/
def pyLower (s : String) : String := ⟨s.data.map lowerChar⟩

/-- The single-quote character. -/
def squote : Char := Char.ofNat 39

/-- Does the (already stripped) list both start and end with quote
character `c`?  A single-character list whose character is `c` qualifies,
matching Python `startswith ∧ endswith` on it. -/
def quotedBy (l : List Char) (c : Char) : Bool :=
  match l, l.getLast? with
  | a :: _, some b => a == c && b == c
  | _, _ => false

/-- Embedding of `_strip_quotes`: strip whitespace, then remove one layer of
matching double or single quotes. -/
def strip_quotes (value : String) : String :=
  let v := pyStrip value
  if quotedBy v.data '"' then ⟨(v.data.drop 1).dropLast⟩
  else if quotedBy v.data squote then ⟨(v.data.drop 1).dropLast⟩
  else v

/-! ## Insertion-ordered dictionaries -/

/-- Python dict assignment `m[k] = v` on an insertion-ordered association
list: overwrite in place if the key exists, else append. -/
def setAssoc {β : Type} : List (String × β) → String → β → List (String × β)
  | [], k, v => [(k, v)]
  | (k₀, v₀) :: rest, k, v =>
    if k₀ = k then (k₀, v) :: rest else (k₀, v₀) :: setAssoc rest k v

/-- Python dict lookup `m.get(k)`: first matching key. -/
def getAssoc {β : Type} : List (String × β) → String → Option β
  | [], _ => none
  | (k₀, v₀) :: rest, k => if k₀ = k then some v₀ else getAssoc rest k

/-! ## The list-format parser `parse_projects_yaml` -/

/-- A value in a parsed record: a scalar string or the nested `stack`
sequence. -/
inductive Val : Type where
  | str (s : String)
  | seq (xs : List String)
deriving DecidableEq, Repr

/-- A parsed record: the Python `Dict[str, object]` as an insertion-ordered
association list. -/
abbrev Rec : Type := List (String × Val)

/-- Parser loop state: accumulated `items`, the `current` record (if any),
and the `in_stack` flag. -/
structure PState : Type where
  items : List Rec
  current : Option Rec
  in_stack : Bool
deriving DecidableEq, Repr

/-- Append a scalar to the `stack` field: Python
`current.setdefault("stack", []); current["stack"].append(item)`.
When `stack` holds a scalar Python would raise `AttributeError`; that state
is unreachable because `in_stack` is only true after a `  stack:` line, and
we leave the record unchanged in the model. -/
def appendStack (r : Rec) (item : String) : Rec :=
  match getAssoc r "stack" with
  | some (Val.seq xs) => setAssoc r "stack" (Val.seq (xs ++ [item]))
  | some (Val.str _) => r
  | none => setAssoc r "stack" (Val.seq [item])

/-- Flushing the current record into the output list: Python
`if current: items.append(current)`, which appends only when `current` is
a non-`None` *non-empty* dict. -/
def flushItems (items : List Rec) (cur : Option Rec) : List Rec :=
  match cur with
  | some c => if c ≠ [] then items ++ [c] else items
  | none => items

/-- The fresh record begun by a `- ` line, from the remainder of that line:
a first `key: value` pair when the remainder contains a colon, else the
empty record. -/
def startRecord (rest : String) : Rec :=
  if pyContains rest ':' = true then
    let kv := pySplit1 rest ':'
    [(pyStrip kv.1, Val.str (strip_quotes kv.2))]
  else []

/-- One iteration of the `for raw_line in ...splitlines()` loop of
`parse_projects_yaml`. -/
def pline (s : PState) (raw : String) : PState :=
  let line := pyRstrip raw
  if line = "" ∨ pyStartsWith (pyLstrip line) "#" = true then s
  else if pyStartsWith line "- " = true then
    ⟨flushItems s.items s.current, some (startRecord (pyDrop line 2)), false⟩
  else
    match s.current with
    | none => s
    | some cur =>
      if pyStartsWith line "  stack:" = true then
        ⟨s.items, some (setAssoc cur "stack" (Val.seq [])), true⟩
      else if s.in_stack = true ∧ pyStartsWith line "    - " = true then
        let item := strip_quotes (pyDrop line 6)
        if item ≠ "" then ⟨s.items, some (appendStack cur item), s.in_stack⟩
        else s
      else if pyStartsWith line "  " = true ∧ pyContains line ':' = true then
        let kv := pySplit1 line ':'
        ⟨s.items, some (setAssoc cur (pyStrip kv.1) (Val.str (strip_quotes kv.2))), false⟩
      else s

/-- Embedding of `parse_projects_yaml`.  The argument is the list of lines of
the input file (`path.read_text().splitlines()`). -/
def parse_projects_yaml (lines : List String) : List Rec :=
  let s := List.foldl pline ⟨[], none, false⟩ lines
  flushItems s.items s.current

/-- A line that begins a new record: after `rstrip` it starts with a dash
and a space. -/
def isRecordStart (raw : String) : Bool := pyStartsWith (pyRstrip raw) "- "

/-- Number of record-start lines of a document. -/
def countRecordStarts (lines : List String) : Nat :=
  (lines.filter isRecordStart).length

/-- Number of leading space characters of a line. -/
def countLeadingSpaces (s : String) : Nat :=
  (s.data.takeWhile (fun c => c == ' ')).length

/-! ## Python truthiness helpers for `or` chains -/

/-- Python `a or b` where both operands are `Optional[str]`: the first
operand if it is a non-empty string, otherwise the second as-is. -/
def pyOrOpt (a b : Option String) : Option String :=
  match a with
  | some s => if s = "" then b else some s
  | none => b

/-- Python `a or fb` where `a` is `Optional[str]` and `fb` is `str`. -/
def pyOrS (a : Option String) (fb : String) : String :=
  match a with
  | some s => if s = "" then fb else s
  | none => fb

/-- Python `a or fb` on two strings. -/
def pyOrS2 (a fb : String) : String := if a = "" then fb else a

/-! ## The HTML metadata extractor (`MetaParser`) -/

/-- The mutable state of `MetaParser`: the meta map, the accumulated title
text, and the `_in_title` flag. -/
structure MetaState : Type where
  meta : List (String × String)
  title : String
  in_title : Bool
deriving DecidableEq, Repr

/-- The attribute dictionary built on a start tag:
`{k.lower(): v for k, v in attrs if k and v}`.  Attribute values may be
`none` (a valueless HTML attribute); those and empty names or values are
dropped, later duplicates overwrite earlier ones. -/
def attrs_dict_of (attrs : List (String × Option String)) : List (String × String) :=
  attrs.foldl
    (fun d p =>
      match p.2 with
      | some v => if p.1 ≠ "" ∧ v ≠ "" then setAssoc d (pyLower p.1) v else d
      | none => d)
    []

/-- Embedding of `MetaParser.handle_starttag`. -/
def handle_starttag (st : MetaState) (tag : String)
    (attrs : List (String × Option String)) : MetaState :=
  if pyLower tag = "meta" then
    let attrs_dict := attrs_dict_of attrs
    let key := pyOrOpt (getAssoc attrs_dict "property") (getAssoc attrs_dict "name")
    let content := getAssoc attrs_dict "content"
    match key, content with
    | some k, some c =>
      if k ≠ "" ∧ c ≠ "" then
        { st with meta := setAssoc st.meta (pyLower (pyStrip k)) (pyStrip c) }
      else st
    | _, _ => st
  else if pyLower tag = "title" then { st with in_title := true }
  else st

/-- Embedding of `MetaParser.handle_endtag`. -/
def handle_endtag (st : MetaState) (tag : String) : MetaState :=
  if pyLower tag = "title" then { st with in_title := false } else st

/-- Embedding of `MetaParser.handle_data`. -/
def handle_data (st : MetaState) (dat : String) : MetaState :=
  if st.in_title = true then { st with title := st.title ++ dat } else st

/-- One HTML token as dispatched by the tolerant stdlib tokenizer
(`html.parser.HTMLParser`, external library): start tags with their
attribute list, end tags, and text data. -/
inductive HtmlToken : Type where
  | startTag (tag : String) (attrs : List (String × Option String))
  | endTag (tag : String)
  | textData (dat : String)
deriving DecidableEq, Repr

/-- Dispatch of one token to the `MetaParser` handlers. -/
def feedToken (st : MetaState) (t : HtmlToken) : MetaState :=
  match t with
  | HtmlToken.startTag tag attrs => handle_starttag st tag attrs
  | HtmlToken.endTag tag => handle_endtag st tag
  | HtmlToken.textData dat => handle_data st dat

/-- `MetaParser.feed` over an already-tokenized document. -/
def feed (st : MetaState) (ts : List HtmlToken) : MetaState :=
  ts.foldl feedToken st

/-! ## URL resolution: a model of `urllib.parse.urljoin`

`resolve_url` in the source delegates to the standard library.  The
definitions below model CPython `urllib.parse.urlsplit` / `urlunsplit` /
`urljoin` (RFC 3986 relative-reference resolution as implemented there). -/

/-- Characters allowed after the first character of a URL scheme. -/
def scheme_chars (c : Char) : Bool :=
  c.isAlpha || c.isDigit || c == '+' || c == '-' || c == '.'

/-- Schemes that allow relative references (`urllib.parse.uses_relative`). -/
def uses_relative : List String :=
  ["", "ftp", "http", "gopher", "nntp", "imap", "wais", "file", "https",
   "shttp", "mms", "prospero", "rtsp", "rtspu", "sftp", "svn", "svn+ssh",
   "ws", "wss"]

/-- Schemes that use a network location (`urllib.parse.uses_netloc`). -/
def uses_netloc : List String :=
  ["", "ftp", "http", "gopher", "nntp", "telnet", "imap", "wais", "file",
   "mms", "https", "shttp", "snews", "prospero", "rtsp", "rtspu", "rsync",
   "svn", "svn+ssh", "sftp", "nfs", "git", "git+ssh", "ws", "wss"]

/-- The five components returned by `urllib.parse.urlsplit`. -/
structure SplitUrl : Type where
  scheme : String
  netloc : String
  path : String
  query : String
  fragment : String
deriving DecidableEq, Repr

/-- Model of `urllib.parse.urlsplit(url, default_scheme)`. -/
def urlsplit (url : String) (default_scheme : String) : SplitUrl :=
  let l := url.data
  let pre := l.takeWhile (fun a => !(a == ':'))
  let sr :=
    if (decide (pre.length < l.length) && !pre.isEmpty &&
        (pre.headD '0').isAlpha && pre.all scheme_chars) = true then
      (String.mk (pre.map lowerChar), l.drop (pre.length + 1))
    else (default_scheme, l)
  let scheme := sr.1
  let rest := sr.2
  let nr :=
    if isPre ['/', '/'] rest then
      let nl := (rest.drop 2).takeWhile
        (fun a => !(a == '/') && !(a == '?') && !(a == '#'))
      (String.mk nl, rest.drop (2 + nl.length))
    else (("" : String), rest)
  let netloc := nr.1
  let rest₂ := nr.2
  let fr :=
    if hasChar rest₂ '#' then
      let p := splitAtChar rest₂ '#'
      (p.1, String.mk p.2)
    else (rest₂, ("" : String))
  let rest₃ := fr.1
  let fragment := fr.2
  let qr :=
    if hasChar rest₃ '?' then
      let p := splitAtChar rest₃ '?'
      (p.1, String.mk p.2)
    else (rest₃, ("" : String))
  ⟨scheme, netloc, String.mk qr.1, qr.2, fragment⟩

/-- Model of `urllib.parse.urlunsplit`. -/
def urlunsplit (u : SplitUrl) : String :=
  let url₁ :=
    if u.netloc ≠ "" ∨ pyStartsWith u.path "//" = true then
      "//" ++ u.netloc ++
        (if u.path ≠ "" ∧ ¬ pyStartsWith u.path "/" = true then "/" ++ u.path
         else u.path)
    else u.path
  let url₂ := if u.scheme ≠ "" then u.scheme ++ ":" ++ url₁ else url₁
  let url₃ := if u.query ≠ "" then url₂ ++ "?" ++ u.query else url₂
  if u.fragment ≠ "" then url₃ ++ "#" ++ u.fragment else url₃

/-- Split a character list on every occurrence of `c`
(Python `str.split(c)`). -/
def splitOnChar : List Char → Char → List (List Char)
  | [], _ => [[]]
  | a :: as, c =>
    if a == c then [] :: splitOnChar as c
    else
      match splitOnChar as c with
      | h :: t => (a :: h) :: t
      | [] => [[a]]

/-- Python `segments[1:-1] = filter(None, segments[1:-1])`: drop empty
segments except the first and the last. -/
def filterMiddle (segs : List (List Char)) : List (List Char) :=
  match segs with
  | [] => []
  | [a] => [a]
  | a :: rest =>
    match rest.getLast? with
    | some lastp => a :: ((rest.dropLast.filter (fun s => s ≠ [])) ++ [lastp])
    | none => [a]

/-- Model of `urllib.parse.urljoin`. -/
def urljoin (base url : String) : String :=
  if base = "" then url
  else if url = "" then base
  else
    let b := urlsplit base ""
    let r := urlsplit url b.scheme
    if r.scheme ≠ b.scheme ∨ ¬ uses_relative.contains r.scheme then url
    else if uses_netloc.contains r.scheme ∧ r.netloc ≠ "" then
      urlunsplit ⟨r.scheme, r.netloc, r.path, r.query, r.fragment⟩
    else
      let netloc := if uses_netloc.contains r.scheme then b.netloc else r.netloc
      if r.path = "" then
        let query := if r.query = "" then b.query else r.query
        urlunsplit ⟨r.scheme, netloc, b.path, query, r.fragment⟩
      else
        let base_parts := splitOnChar b.path.data '/'
        let base_parts :=
          match base_parts.getLast? with
          | some lastp => if lastp = [] then base_parts else base_parts.dropLast
          | none => base_parts
        let segments :=
          if pyStartsWith r.path "/" = true then splitOnChar r.path.data '/'
          else filterMiddle (base_parts ++ splitOnChar r.path.data '/')
        let resolved := segments.foldl
          (fun acc seg =>
            if seg = ['.', '.'] then acc.dropLast
            else if seg = ['.'] then acc
            else acc ++ [seg])
          ([] : List (List Char))
        let resolved :=
          if segments.getLast? = some ['.'] ∨ segments.getLast? = some ['.', '.']
          then resolved ++ [[]] else resolved
        let pathStr := String.mk (List.intercalate ['/'] resolved)
        let path₂ := if pathStr = "" then "/" else pathStr
        urlunsplit ⟨r.scheme, netloc, path₂, r.query, r.fragment⟩

/-- Embedding of `resolve_url`. -/
def resolve_url (base candidate : String) : String := urljoin base candidate

/-! ## The card builder `build_card` -/

/-- The normalized card: the dict built by `build_card`, plus the `error`
key that `main` adds on a fetch failure (`none` when absent). -/
structure Card : Type where
  type : String
  title : String
  description : String
  image : String
  site : String
  error : Option String
deriving DecidableEq, Repr

/-- Embedding of `build_card`. -/
def build_card (url : String) (meta : List (String × String))
    (title_fallback desc_fallback : String) : Card :=
  let og_title := getAssoc meta "og:title"
  let tw_title := getAssoc meta "twitter:title"
  let og_desc := getAssoc meta "og:description"
  let tw_desc := getAssoc meta "twitter:description"
  let meta_desc := getAssoc meta "description"
  let og_image := getAssoc meta "og:image"
  let tw_image := getAssoc meta "twitter:image"
  let card_type := getAssoc meta "twitter:card"
  let tw_site := getAssoc meta "twitter:site"
  let title := pyOrS (pyOrOpt tw_title og_title) title_fallback
  let description :=
    pyOrS (pyOrOpt (pyOrOpt tw_desc og_desc) meta_desc) desc_fallback
  let image₀ := pyOrS (pyOrOpt tw_image og_image) ""
  let image := if image₀ = "" then image₀ else resolve_url url image₀
  let ctype :=
    match card_type with
    | some s =>
      if s = "" then (if image = "" then "summary" else "summary_large_image")
      else s
    | none => if image = "" then "summary" else "summary_large_image"
  ⟨ctype, title, description, image, pyOrS tw_site "", none⟩

/-! ## The per-record pipeline (`main` loop body) -/

/-- A value of an enriched output record: a passed-through parsed value or
the computed card. -/
inductive OVal : Type where
  | val (v : Val)
  | card (c : Card)
deriving DecidableEq, Repr

/-- An enriched output record (`dict(project)` plus the `card` key). -/
abbrev ORec : Type := List (String × OVal)

/-- Python `str()` of a list of strings (its repr with single quotes;
escape-free model, used only when a fetched field is the nested `stack`
list, which never holds quote characters in practice). -/
def pyStrList (xs : List String) : String :=
  "[" ++ String.intercalate ", "
    (xs.map (fun s => String.singleton squote ++ s ++ String.singleton squote)) ++ "]"

/-- Python `str(project.get(k, ""))`. -/
def getStr (p : Rec) (k : String) : String :=
  match getAssoc p k with
  | some (Val.str s) => s
  | some (Val.seq xs) => pyStrList xs
  | none => ""

/-- The output record of one project: `dict(project)` followed by
`enriched_item["card"] = card`. -/
def enrich (p : Rec) (c : Card) : ORec :=
  setAssoc (p.map (fun kv => (kv.1, OVal.val kv.2))) "card" (OVal.card c)

/-- One iteration of `main`'s `for project in projects` loop.  The network
and the stdlib HTML tokenizer are abstracted into `fetch`: `Except.ok`
carries the token stream of the fetched page, `Except.error` carries the
message of a caught network exception (`URLError`/`HTTPError`/
`TimeoutError`). -/
def mainStep (fetch : String → Except String (List HtmlToken)) (p : Rec) : ORec :=
  let url := pyStrip (getStr p "url")
  let title_fallback := pyStrip (getStr p "name")
  let desc_fallback := pyStrip (getStr p "description")
  let fallback : Card := ⟨"", title_fallback, desc_fallback, "", "", none⟩
  let card : Card :=
    if url ≠ "" then
      match fetch url with
      | Except.ok toks =>
        let ps := feed ⟨[], "", false⟩ toks
        let title := pyOrS2 (pyStrip ps.title) title_fallback
        build_card url ps.meta title desc_fallback
      | Except.error msg =>
        { fallback with error := some ("fetch_failed: " ++ msg) }
    else fallback
  enrich p card

/-- The whole record loop of `main`: one output record per input record. -/
def mainLoop (fetch : String → Except String (List HtmlToken))
    (projects : List Rec) : List ORec :=
  projects.map (mainStep fetch)

/-! ## Spec-side definitions -/

/-- Modelled from the spec: the first non-empty value among the listed
candidates, else the fallback (the spec's field-precedence rule, where an
absent key counts as empty). -/
def firstNonEmptyMeta : List (Option String) → String → String
  | [], fb => fb
  | some s :: rest, fb => if s = "" then firstNonEmptyMeta rest fb else s
  | none :: rest, fb => firstNonEmptyMeta rest fb

/-- Output records contributed by an optional current record once flushed
(at most). -/
def onec : Option Rec → Nat
  | some _ => 1
  | none => 0

/-- Modelled from the spec: flushing that keeps every started record, even
an empty one. -/
def flushAll (items : List Rec) (cur : Option Rec) : List Rec :=
  match cur with
  | some c => items ++ [c]
  | none => items

/-- Modelled from the spec: the per-start-line variant of `pline` — identical
except that a `- ` line keeps the previous record even when it is empty, so
the items list receives exactly one record per record-start line, in file
order. -/
def plineAll (s : PState) (raw : String) : PState :=
  let line := pyRstrip raw
  if line = "" ∨ pyStartsWith (pyLstrip line) "#" = true then s
  else if pyStartsWith line "- " = true then
    ⟨flushAll s.items s.current, some (startRecord (pyDrop line 2)), false⟩
  else
    match s.current with
    | none => s
    | some cur =>
      if pyStartsWith line "  stack:" = true then
        ⟨s.items, some (setAssoc cur "stack" (Val.seq [])), true⟩
      else if s.in_stack = true ∧ pyStartsWith line "    - " = true then
        let item := strip_quotes (pyDrop line 6)
        if item ≠ "" then ⟨s.items, some (appendStack cur item), s.in_stack⟩
        else s
      else if pyStartsWith line "  " = true ∧ pyContains line ':' = true then
        let kv := pySplit1 line ':'
        ⟨s.items, some (setAssoc cur (pyStrip kv.1) (Val.str (strip_quotes kv.2))), false⟩
      else s

/-- Modelled from the spec: the sequence of records begun by the `- ` lines
of a document, one record per record-start line, in file order, empty
records included. -/
def startedRecords (lines : List String) : List Rec :=
  let s := List.foldl plineAll ⟨[], none, false⟩ lines
  flushAll s.items s.current

/-! ## Sanity examples evaluating the embedding -/

example : parse_projects_yaml ["- name: x", "  url: u"] =
    [[("name", Val.str "x"), ("url", Val.str "u")]] := by decide

example : parse_projects_yaml ["- x", "- name: y"] = [[("name", Val.str "y")]] := by decide

example : parse_projects_yaml ["- name: x", "  stack:", "    - a", "    - \"\""] =
    [[("name", Val.str "x"), ("stack", Val.seq ["a"])]] := by decide

example : parse_projects_yaml ["- name: x", "    foo: bar"] =
    [[("name", Val.str "x"), ("foo", Val.str "bar")]] := by decide

example : resolve_url "https://example.com/page" "/img.png" =
    "https://example.com/img.png" := by decide

example : resolve_url "https://example.com/a/page" "img.png" =
    "https://example.com/a/img.png" := by decide

example : resolve_url "https://example.com/page" "//cdn.test/x.png" =
    "https://cdn.test/x.png" := by decide

example : resolve_url "https://example.com/page" "http://other.test/y.png" =
    "http://other.test/y.png" := by decide

example : build_card "u" [] "Proj" "Desc" =
    ⟨"summary", "Proj", "Desc", "", "", none⟩ := by decide

example : (build_card "u" [("twitter:title", "A"), ("og:title", "B")] "fb" "d").title
    = "A" := by decide

example : (build_card "https://example.com/page" [("og:image", "/img.png")] "t" "d").image
    = "https://example.com/img.png" := by decide

example :
    mainStep (fun _ => Except.error "timed out")
      [("name", Val.str " N "), ("url", Val.str "https://x.test"),
       ("description", Val.str "D")] =
    [("name", OVal.val (Val.str " N ")),
     ("url", OVal.val (Val.str "https://x.test")),
     ("description", OVal.val (Val.str "D")),
     ("card", OVal.card ⟨"", "N", "D", "", "", some "fetch_failed: timed out"⟩)] := by
  decide

example :
    mainStep (fun _ => Except.ok
        [HtmlToken.startTag "meta" [("property", some "og:title"), ("content", some "Hi")],
         HtmlToken.startTag "title" [], HtmlToken.textData "ignored",
         HtmlToken.endTag "title"])
      [("name", Val.str "X"), ("url", Val.str "https://x.test"),
       ("description", Val.str "d")] =
    [("name", OVal.val (Val.str "X")),
     ("url", OVal.val (Val.str "https://x.test")),
     ("description", OVal.val (Val.str "d")),
     ("card", OVal.card ⟨"summary", "Hi", "d", "", "", none⟩)] := by
  decide

example : startedRecords ["- x", "- name: y"] = [[], [("name", Val.str "y")]] := by
  decide

example : startedRecords ["- name: x", "  url: u"] =
    [[("name", Val.str "x"), ("url", Val.str "u")]] := by decide

/-! ## Helper lemmas -/

theorem pyOr_eq_firstNonEmpty (a b : Option String) (fb : String) :
    pyOrS (pyOrOpt a b) fb = firstNonEmptyMeta [a, b] fb := by
  cases a with
  | none =>
    cases b with
    | none => rfl
    | some s => by_cases h : s = "" <;> simp [pyOrOpt, pyOrS, firstNonEmptyMeta, h]
  | some s =>
    by_cases h : s = ""
    · cases b with
      | none => simp [pyOrOpt, pyOrS, firstNonEmptyMeta, h]
      | some t => by_cases ht : t = "" <;> simp [pyOrOpt, pyOrS, firstNonEmptyMeta, h, ht]
    · simp [pyOrOpt, pyOrS, firstNonEmptyMeta, h]

/-! ## Claim theorems -/

/-- Claim C4: the card title is the first non-empty value among
`twitter:title`, then `og:title`, then the title fallback; in particular
with `twitter:title = "A"` and `og:title = "B"` the title is `"A"`. -/
theorem C4_title_precedence :
    (∀ (url : String) (meta : List (String × String)) (tf df : String),
      (build_card url meta tf df).title =
        firstNonEmptyMeta
          [getAssoc meta "twitter:title", getAssoc meta "og:title"] tf)
  ∧ (build_card "u" [("twitter:title", "A"), ("og:title", "B")] "fb" "d").title
      = "A" := by
  constructor
  · intro url meta tf df
    simp only [build_card]
    exact pyOr_eq_firstNonEmpty _ _ _
  · decide

/-- Claim C7: an empty meta map with fallbacks `"Proj"`/`"Desc"` yields
exactly the card with type `summary`, title `Proj`, description `Desc`,
and empty image and site; the builder always returns a complete card and
never produces an `error` field. -/
theorem C7_empty_meta_card :
    (∀ url : String,
      build_card url [] "Proj" "Desc" = ⟨"summary", "Proj", "Desc", "", "", none⟩)
  ∧ (∀ (url : String) (meta : List (String × String)) (tf df : String),
      (build_card url meta tf df).error = none) := by
  exact ⟨fun url => rfl, fun url meta tf df => rfl⟩

/-- Claim C8: the card image is the first non-empty value among
`twitter:image` then `og:image` (else empty), resolved against the source
URL; with only `og:image = "/img.png"` and source
`https://example.com/page` the image is `https://example.com/img.png`. -/
theorem C8_image_precedence_resolution :
    (∀ (url : String) (meta : List (String × String)) (tf df : String),
      (build_card url meta tf df).image =
        (if firstNonEmptyMeta
              [getAssoc meta "twitter:image", getAssoc meta "og:image"] "" = ""
         then ""
         else resolve_url url
           (firstNonEmptyMeta
             [getAssoc meta "twitter:image", getAssoc meta "og:image"] "")))
  ∧ (build_card "https://example.com/page" [("og:image", "/img.png")] "t" "d").image
      = "https://example.com/img.png" := by
  constructor
  · intro url meta tf df
    simp only [build_card]
    rw [pyOr_eq_firstNonEmpty]
    split_ifs with h
    · exact h
    · rfl
  · decide

/-- Claim C2: when the URL is non-empty and the fetch fails with a caught
network error, the output card keeps the fallback title/description with
empty type/image/site plus an `error` field, and the loop still produces
one output record per input record. -/
theorem C2_fetch_failure_fallback :
    (∀ (fetch : String → Except String (List HtmlToken)) (p : Rec) (msg : String),
      pyStrip (getStr p "url") ≠ "" →
      fetch (pyStrip (getStr p "url")) = Except.error msg →
      mainStep fetch p =
        enrich p ⟨"", pyStrip (getStr p "name"), pyStrip (getStr p "description"),
                  "", "", some ("fetch_failed: " ++ msg)⟩)
  ∧ (∀ (fetch : String → Except String (List HtmlToken)) (projects : List Rec),
      (mainLoop fetch projects).length = projects.length) := by
  constructor
  · intro fetch p msg h hf
    simp only [mainStep]
    rw [if_pos h, hf]
  · intro fetch projects
    simp [mainLoop]

/-- Claim C2 witness: a concrete record whose fetch times out keeps the
trimmed fallbacks and gains the error field, and a two-record batch still
yields two records. -/
theorem C2_witness :
    mainStep (fun _ => Except.error "timed out")
      [("name", Val.str " N "), ("url", Val.str "https://x.test"),
       ("description", Val.str "D")] =
      [("name", OVal.val (Val.str " N ")),
       ("url", OVal.val (Val.str "https://x.test")),
       ("description", OVal.val (Val.str "D")),
       ("card", OVal.card ⟨"", "N", "D", "", "", some "fetch_failed: timed out"⟩)]
  ∧ (mainLoop (fun _ => Except.error "timed out")
      [[("url", Val.str "u")], []]).length = 2 := by
  constructor
  · have h := C2_fetch_failure_fallback.1 (fun _ => Except.error "timed out")
      [("name", Val.str " N "), ("url", Val.str "https://x.test"),
       ("description", Val.str "D")] "timed out" (by decide) rfl
    exact h.trans (by decide)
  · exact (C2_fetch_failure_fallback.2 (fun _ => Except.error "timed out")
      [[("url", Val.str "u")], []]).trans (by decide)

/-- Claim C3: when the trimmed URL is empty no network call happens (the
result does not depend on the fetch function) and the card is the pure
fallback card with no error field. -/
theorem C3_no_url_pure_fallback :
    ∀ (p : Rec), pyStrip (getStr p "url") = "" →
      (∀ (f g : String → Except String (List HtmlToken)),
        mainStep f p = mainStep g p)
    ∧ mainStep (fun _ => Except.error "unused") p =
        enrich p ⟨"", pyStrip (getStr p "name"), pyStrip (getStr p "description"),
                  "", "", none⟩ := by
  intro p h
  constructor
  · intro f g
    simp only [mainStep]
    rw [if_neg (by simp [h]), if_neg (by simp [h])]
  · simp only [mainStep]
    rw [if_neg (by simp [h])]

/-- Claim C3 witness: a concrete record without a `url` key gives the same
output for two different fetch functions, and its card is the pure fallback
card without an error field. -/
theorem C3_witness :
    mainStep (fun _ => Except.ok []) [("name", Val.str "A"), ("description", Val.str " d ")] =
      mainStep (fun _ => Except.error "boom")
        [("name", Val.str "A"), ("description", Val.str " d ")]
  ∧ mainStep (fun _ => Except.error "unused")
      [("name", Val.str "A"), ("description", Val.str " d ")] =
      [("name", OVal.val (Val.str "A")),
       ("description", OVal.val (Val.str " d ")),
       ("card", OVal.card ⟨"", "A", "d", "", "", none⟩)] := by
  have h := C3_no_url_pure_fallback
    [("name", Val.str "A"), ("description", Val.str " d ")] (by decide)
  exact ⟨h.1 _ _, h.2.trans (by decide)⟩

theorem getAssoc_setAssoc_self {β : Type} (m : List (String × β)) (k : String) (v : β) :
    getAssoc (setAssoc m k v) k = some v := by
  induction m with
  | nil => simp [setAssoc, getAssoc]
  | cons a rest ih =>
    obtain ⟨k₀, v₀⟩ := a
    by_cases h : k₀ = k <;> simp [setAssoc, getAssoc, h, ih]

theorem getAssoc_setAssoc_ne {β : Type} (m : List (String × β)) (k k' : String) (v : β)
    (h : k' ≠ k) : getAssoc (setAssoc m k v) k' = getAssoc m k' := by
  induction m with
  | nil => simp [setAssoc, getAssoc, Ne.symm h]
  | cons a rest ih =>
    obtain ⟨k₀, v₀⟩ := a
    by_cases h₀ : k₀ = k
    · subst h₀
      simp [setAssoc, getAssoc, Ne.symm h]
    · by_cases h₁ : k₀ = k'
      · subst h₁
        simp [setAssoc, getAssoc, h₀]
      · simp [setAssoc, getAssoc, h₀, h₁, ih]

theorem getAssoc_map_val (p : Rec) (k : String) :
    getAssoc (p.map (fun kv => (kv.1, OVal.val kv.2))) k =
      (getAssoc p k).map OVal.val := by
  induction p with
  | nil => simp [getAssoc]
  | cons a rest ih =>
    obtain ⟨k₀, v₀⟩ := a
    by_cases h : k₀ = k <;> simp [getAssoc, h, ih]

theorem enrich_lookup (p : Rec) (c : Card) :
    (∀ k, k ≠ "card" → getAssoc (enrich p c) k = (getAssoc p k).map OVal.val)
  ∧ getAssoc (enrich p c) "card" = some (OVal.card c) := by
  constructor
  · intro k hk
    unfold enrich
    rw [getAssoc_setAssoc_ne _ _ _ _ hk, getAssoc_map_val]
  · unfold enrich
    exact getAssoc_setAssoc_self _ _ _

/-- Claim C10: every key of the input record passes through to the output
record with its original value, except `card`, which is always set to the
computed card (silently replacing any pre-existing `card` field). -/
theorem C10_passthrough_card_override :
    ∀ (fetch : String → Except String (List HtmlToken)) (p : Rec) (k : String),
      k ≠ "card" →
      getAssoc (mainStep fetch p) k = (getAssoc p k).map OVal.val
    ∧ ∃ c, getAssoc (mainStep fetch p) "card" = some (OVal.card c) := by
  intro fetch p k hk
  simp only [mainStep]
  constructor
  · exact (enrich_lookup p _).1 k hk
  · exact ⟨_, (enrich_lookup p _).2⟩

/-- Claim C10 witness: a record that already carries a `card` field keeps
its other keys unchanged while its `card` is replaced by a computed card. -/
theorem C10_witness :
    getAssoc (mainStep (fun _ => Except.error "e")
      [("name", Val.str "n"), ("card", Val.str "old")]) "name" =
      some (OVal.val (Val.str "n"))
  ∧ ∃ c, getAssoc (mainStep (fun _ => Except.error "e")
      [("name", Val.str "n"), ("card", Val.str "old")]) "card" =
      some (OVal.card c) := by
  have h := C10_passthrough_card_override (fun _ => Except.error "e")
    [("name", Val.str "n"), ("card", Val.str "old")] "name" (by decide)
  exact ⟨h.1.trans (by decide), h.2⟩

/-- Claim C5 counterexample: a `meta` tag with `property="x"` and
`content=" "` stores the entry `x -> ""` although the content is empty
after trimming — so storage is not conditioned on non-emptiness after
trimming, and the stored value can be empty. -/
theorem C5_counterexample :
    (handle_starttag ⟨[], "", false⟩ "meta"
      [("property", some "x"), ("content", some " ")]).meta = [("x", "")]
  ∧ pyStrip " " = "" := by decide

/-- Claim C5 (amended): on a `meta` start tag the key is the `property`
attribute value if present and non-empty, else the `name` attribute value;
an entry `lower(trim(key)) -> trim(content)` is stored if and only if the
chosen key and the `content` attribute value are present and non-empty
before trimming (so the stored value may be empty), overwriting any
previous entry for the same key. -/
theorem C5_amended_meta_store :
    ∀ (st : MetaState) (attrs : List (String × Option String)) (k c : String),
      (pyOrOpt (getAssoc (attrs_dict_of attrs) "property")
          (getAssoc (attrs_dict_of attrs) "name") = some k →
       getAssoc (attrs_dict_of attrs) "content" = some c →
       k ≠ "" → c ≠ "" →
       (handle_starttag st "meta" attrs).meta =
         setAssoc st.meta (pyLower (pyStrip k)) (pyStrip c))
    ∧ ((pyOrOpt (getAssoc (attrs_dict_of attrs) "property")
          (getAssoc (attrs_dict_of attrs) "name") = none ∨
        pyOrOpt (getAssoc (attrs_dict_of attrs) "property")
          (getAssoc (attrs_dict_of attrs) "name") = some "" ∨
        getAssoc (attrs_dict_of attrs) "content" = none ∨
        getAssoc (attrs_dict_of attrs) "content" = some "") →
       (handle_starttag st "meta" attrs).meta = st.meta)
    ∧ (∀ (m : List (String × String)) (k₂ v₂ : String),
        getAssoc (setAssoc m k₂ v₂) k₂ = some v₂) := by
  intro st attrs k c
  refine ⟨?_, ?_, fun m k₂ v₂ => getAssoc_setAssoc_self m k₂ v₂⟩
  · intro hk hc hkne hcne
    simp only [handle_starttag]
    rw [if_pos (show pyLower "meta" = "meta" from rfl), hk, hc]
    simp [hkne, hcne]
  · intro hfalsy
    simp only [handle_starttag]
    rw [if_pos (show pyLower "meta" = "meta" from rfl)]
    rcases hK : pyOrOpt (getAssoc (attrs_dict_of attrs) "property")
        (getAssoc (attrs_dict_of attrs) "name") with _ | k₁
    all_goals rcases hC : getAssoc (attrs_dict_of attrs) "content" with _ | c₁
    · rfl
    · rfl
    · rfl
    · rcases hfalsy with h | h | h | h
      · rw [hK] at h
        cases h
      · rw [hK] at h
        injection h with h
        simp [h]
      · rw [hC] at h
        cases h
      · rw [hC] at h
        injection h with h
        simp [h]

/-- Claim C5 witness: a tag with `property="og:title"`, `content=" T "`
stores trimmed content under the key, and overwriting a previous entry is
observable through lookup. -/
theorem C5_witness :
    (handle_starttag ⟨[], "", false⟩ "meta"
      [("property", some "og:title"), ("content", some " T ")]).meta =
      [("og:title", "T")]
  ∧ getAssoc (setAssoc [("og:title", "x")] "og:title" "T") "og:title" = some "T" := by
  have h := C5_amended_meta_store ⟨[], "", false⟩
    [("property", some "og:title"), ("content", some " T ")] "og:title" " T "
  exact ⟨(h.1 (by decide) (by decide) (by decide) (by decide)).trans (by decide),
    h.2.2 [("og:title", "x")] "og:title" "T"⟩

/-- Claim C1 counterexample: the document `["- x", "- name: y"]` has two
record-start lines but `parse` returns a single record — a `- ` line whose
record never receives a field is dropped, so the counts differ and the
first output record corresponds to the second start line. -/
theorem C1_counterexample :
    (parse_projects_yaml ["- x", "- name: y"]).length = 1
  ∧ countRecordStarts ["- x", "- name: y"] = 2 := by decide

theorem isPre_cons_iff (c : Char) (cs xs : List Char) :
    isPre (c :: cs) xs = true ↔ ∃ t, xs = c :: t ∧ isPre cs t = true := by
  cases xs with
  | nil => simp [isPre]
  | cons b bs =>
    simp only [isPre, Bool.and_eq_true, beq_iff_eq]
    constructor
    · rintro ⟨h1, h2⟩
      subst h1
      exact ⟨bs, rfl, h2⟩
    · rintro ⟨t, ht, h2⟩
      injection ht with h1 h3
      subst h1
      subst h3
      exact ⟨rfl, h2⟩

theorem isPre_append_mono (p q xs : List Char) (h : isPre (p ++ q) xs = true) :
    isPre p xs = true := by
  induction p generalizing xs with
  | nil => rfl
  | cons a as ih =>
    cases xs with
    | nil => simp [isPre] at h
    | cons b bs =>
      simp only [List.cons_append, isPre, Bool.and_eq_true] at h ⊢
      exact ⟨h.1, ih bs h.2⟩

theorem startsWith_two_spaces {l : String} (h : pyStartsWith l "  " = true) :
    ∃ t, l.data = ' ' :: ' ' :: t := by
  have h' : isPre [' ', ' '] l.data = true := h
  rcases (isPre_cons_iff _ _ _).mp h' with ⟨t1, ht1, h1⟩
  rcases (isPre_cons_iff _ _ _).mp h1 with ⟨t2, ht2, _⟩
  exact ⟨t2, by rw [ht1, ht2]⟩

theorem startsWith_two_ne_empty {l : String} (h : pyStartsWith l "  " = true) :
    l ≠ "" := by
  obtain ⟨t, ht⟩ := startsWith_two_spaces h
  intro he
  rw [he] at ht
  simp at ht

theorem twoSpace_not_dash {l : String} (h : pyStartsWith l "  " = true) :
    pyStartsWith l "- " = false := by
  obtain ⟨t, ht⟩ := startsWith_two_spaces h
  show isPre ("- " : String).data l.data = false
  rw [ht]
  rfl

theorem stack_prefix_two {l : String} (h : pyStartsWith l "  stack:" = true) :
    pyStartsWith l "  " = true := by
  have h' : isPre ([' ', ' '] ++ ['s', 't', 'a', 'c', 'k', ':']) l.data = true := h
  exact isPre_append_mono [' ', ' '] _ _ h'

theorem item_prefix_two {l : String} (h : pyStartsWith l "    - " = true) :
    pyStartsWith l "  " = true := by
  have h' : isPre ([' ', ' '] ++ [' ', ' ', '-', ' ']) l.data = true := h
  exact isPre_append_mono [' ', ' '] _ _ h'

theorem recordStart_not_comment {l : String} (hd : pyStartsWith l "- " = true) :
    pyStartsWith (pyLstrip l) "#" = false := by
  have h' : isPre ['-', ' '] l.data = true := hd
  rcases (isPre_cons_iff _ _ _).mp h' with ⟨t, ht, _⟩
  show isPre ("#" : String).data (lstripL l.data) = false
  rw [ht]
  rfl

theorem flushItems_eq_filter (items : List Rec) (cur : Option Rec) :
    flushItems (items.filter (fun t => t ≠ [])) cur =
      (flushAll items cur).filter (fun t => t ≠ []) := by
  cases cur with
  | none => rfl
  | some c =>
    by_cases hc : c = []
    · subst hc
      simp [flushItems, flushAll, List.filter_append]
    · simp [flushItems, flushAll, List.filter_append, hc]

theorem flushAll_length (items : List Rec) (cur : Option Rec) :
    (flushAll items cur).length = items.length + onec cur := by
  cases cur <;> simp [flushAll, onec]

theorem pline_vs_plineAll (items : List Rec) (cur : Option Rec) (instk : Bool)
    (raw : String) :
    pline ⟨items.filter (fun t => t ≠ []), cur, instk⟩ raw =
      ⟨(plineAll ⟨items, cur, instk⟩ raw).items.filter (fun t => t ≠ []),
       (plineAll ⟨items, cur, instk⟩ raw).current,
       (plineAll ⟨items, cur, instk⟩ raw).in_stack⟩ := by
  unfold pline plineAll
  by_cases h1 : pyRstrip raw = "" ∨ pyStartsWith (pyLstrip (pyRstrip raw)) "#" = true
  · rw [if_pos h1, if_pos h1]
  · rw [if_neg h1, if_neg h1]
    by_cases h2 : pyStartsWith (pyRstrip raw) "- " = true
    · rw [if_pos h2, if_pos h2]
      dsimp only
      rw [flushItems_eq_filter]
    · rw [if_neg h2, if_neg h2]
      cases cur with
      | none => rfl
      | some c =>
        dsimp only
        by_cases h3 : pyStartsWith (pyRstrip raw) "  stack:" = true
        · rw [if_pos h3, if_pos h3]
        · rw [if_neg h3, if_neg h3]
          by_cases h4 : instk = true ∧ pyStartsWith (pyRstrip raw) "    - " = true
          · rw [if_pos h4, if_pos h4]
            by_cases h5 : strip_quotes (pyDrop (pyRstrip raw) 6) ≠ ""
            · rw [if_pos h5, if_pos h5]
            · rw [if_neg h5, if_neg h5]
          · rw [if_neg h4, if_neg h4]
            by_cases h5 : pyStartsWith (pyRstrip raw) "  " = true ∧
                pyContains (pyRstrip raw) ':' = true
            · rw [if_pos h5, if_pos h5]
            · rw [if_neg h5, if_neg h5]

theorem foldl_pline_vs_all (lines : List String) (items : List Rec)
    (cur : Option Rec) (instk : Bool) :
    List.foldl pline ⟨items.filter (fun t => t ≠ []), cur, instk⟩ lines =
      ⟨(List.foldl plineAll ⟨items, cur, instk⟩ lines).items.filter (fun t => t ≠ []),
       (List.foldl plineAll ⟨items, cur, instk⟩ lines).current,
       (List.foldl plineAll ⟨items, cur, instk⟩ lines).in_stack⟩ := by
  induction lines generalizing items cur instk with
  | nil => rfl
  | cons a as ih =>
    simp only [List.foldl_cons]
    rw [pline_vs_plineAll]
    exact ih (plineAll ⟨items, cur, instk⟩ a).items
      (plineAll ⟨items, cur, instk⟩ a).current
      (plineAll ⟨items, cur, instk⟩ a).in_stack

theorem plineAll_count (s : PState) (a : String) :
    (plineAll s a).items.length + onec (plineAll s a).current =
      s.items.length + onec s.current + (if isRecordStart a then 1 else 0) := by
  obtain ⟨items, cur, instk⟩ := s
  unfold plineAll
  by_cases h1 : pyRstrip a = "" ∨ pyStartsWith (pyLstrip (pyRstrip a)) "#" = true
  · rw [if_pos h1]
    have hno : isRecordStart a = false := by
      rcases h1 with he | hc
      · show pyStartsWith (pyRstrip a) "- " = false
        rw [he]
        rfl
      · by_cases hd : pyStartsWith (pyRstrip a) "- " = true
        · rw [recordStart_not_comment hd] at hc
          exact absurd hc Bool.false_ne_true
        · simpa using hd
    rw [hno]
    simp
  · rw [if_neg h1]
    by_cases h2 : pyStartsWith (pyRstrip a) "- " = true
    · rw [if_pos h2]
      have hrs : isRecordStart a = true := h2
      rw [if_pos hrs]
      dsimp only
      rw [flushAll_length]
      simp only [onec]
    · rw [if_neg h2]
      have hno : isRecordStart a = false := by simpa using h2
      rw [hno]
      cases cur with
      | none => simp
      | some c =>
        dsimp only
        by_cases h3 : pyStartsWith (pyRstrip a) "  stack:" = true
        · rw [if_pos h3]
          simp [onec]
        · rw [if_neg h3]
          by_cases h4 : instk = true ∧ pyStartsWith (pyRstrip a) "    - " = true
          · rw [if_pos h4]
            by_cases h5 : strip_quotes (pyDrop (pyRstrip a) 6) ≠ ""
            · rw [if_pos h5]
              simp [onec]
            · rw [if_neg h5]
              simp [onec]
          · rw [if_neg h4]
            by_cases h5 : pyStartsWith (pyRstrip a) "  " = true ∧
                pyContains (pyRstrip a) ':' = true
            · rw [if_pos h5]
              simp [onec]
            · rw [if_neg h5]
              simp [onec]

theorem foldl_plineAll_count (lines : List String) (s : PState) :
    (List.foldl plineAll s lines).items.length +
        onec (List.foldl plineAll s lines).current =
      s.items.length + onec s.current + countRecordStarts lines := by
  induction lines generalizing s with
  | nil => simp [countRecordStarts]
  | cons a as ih =>
    have hstep := plineAll_count s a
    have hrest := ih (plineAll s a)
    have hcount : countRecordStarts (a :: as) =
        (if isRecordStart a then 1 else 0) + countRecordStarts as := by
      by_cases h : isRecordStart a
      · simp only [countRecordStarts, List.filter_cons, h, if_pos]
        simp [List.length_cons]
        omega
      · simp [countRecordStarts, List.filter_cons, h]
    rw [List.foldl_cons, hcount, hrest, hstep]
    omega

theorem startedRecords_count (lines : List String) :
    (startedRecords lines).length = countRecordStarts lines := by
  unfold startedRecords
  dsimp only
  rw [flushAll_length]
  have h := foldl_plineAll_count lines ⟨[], none, false⟩
  simpa [onec] using h

theorem parse_eq_filter_startedRecords (lines : List String) :
    parse_projects_yaml lines = (startedRecords lines).filter (fun t => t ≠ []) := by
  unfold parse_projects_yaml startedRecords
  dsimp only
  have h : List.foldl pline ⟨[], none, false⟩ lines =
      ⟨(List.foldl plineAll ⟨[], none, false⟩ lines).items.filter (fun t => t ≠ []),
       (List.foldl plineAll ⟨[], none, false⟩ lines).current,
       (List.foldl plineAll ⟨[], none, false⟩ lines).in_stack⟩ :=
    foldl_pline_vs_all lines [] none false
  rw [h]
  exact flushItems_eq_filter _ _

/-- Claim C1 (amended): the records begun by the `- ` record-start lines
form one record per start line in file order (`startedRecords`), and
`parse` returns exactly this sequence with its empty records dropped — so
output records correspond to their start lines in file order, at most one
record per `- ` line, and every returned record is non-empty. -/
theorem C1_amended_record_count :
    ∀ (lines : List String),
      (startedRecords lines).length = countRecordStarts lines
    ∧ parse_projects_yaml lines = (startedRecords lines).filter (fun t => t ≠ [])
    ∧ (parse_projects_yaml lines).length ≤ countRecordStarts lines
    ∧ ∀ r ∈ parse_projects_yaml lines, r ≠ [] := by
  intro lines
  have hcount := startedRecords_count lines
  have hparse := parse_eq_filter_startedRecords lines
  refine ⟨hcount, hparse, ?_, ?_⟩
  · rw [hparse, ← hcount]
    exact List.length_filter_le _ _
  · intro r hr
    rw [hparse] at hr
    simpa using (List.mem_filter.mp hr).2

/-- Claim C1 witness: on the two-start-line document of the counterexample,
the started-record sequence has one entry per `- ` line, parse equals its
non-empty entries in order, the output count is bounded, and the returned
record is non-empty. -/
theorem C1_witness :
    (startedRecords ["- x", "- name: y"]).length = countRecordStarts ["- x", "- name: y"]
  ∧ parse_projects_yaml ["- x", "- name: y"] =
      (startedRecords ["- x", "- name: y"]).filter (fun t => t ≠ [])
  ∧ (parse_projects_yaml ["- x", "- name: y"]).length ≤
      countRecordStarts ["- x", "- name: y"]
  ∧ ([("name", Val.str "y")] : Rec) ≠ [] := by
  have h := C1_amended_record_count ["- x", "- name: y"]
  exact ⟨h.1, h.2.1, h.2.2.1, h.2.2.2 [("name", Val.str "y")] (by decide)⟩

/-- Claim C6 counterexample: the line `"    foo: bar"` has four leading
spaces, not exactly two, yet it sets the scalar field `foo` on the current
record — the code tests `startswith("  ")`, i.e. at least two spaces. -/
theorem C6_counterexample :
    parse_projects_yaml ["- name: x", "    foo: bar"] =
      [[("name", Val.str "x"), ("foo", Val.str "bar")]]
  ∧ countLeadingSpaces "    foo: bar" = 4 := by decide

/-- Claim C6 (amended): within a record, exactly the lines with at least two
leading spaces that contain `:` — other than lines starting with
`  stack:` and lines consumed as stack items (`in_stack` with a `    - `
prefix) and comment lines — set a top-level scalar field and close the
nested `stack` context; lines starting with fewer than two spaces that do
not begin a record leave the state unchanged. -/
theorem C6_amended_scalar_lines :
    ∀ (items : List Rec) (r : Rec) (instk : Bool) (raw : String),
      (pyStartsWith (pyRstrip raw) "  " = true →
       pyContains (pyRstrip raw) ':' = true →
       pyStartsWith (pyLstrip (pyRstrip raw)) "#" = false →
       pyStartsWith (pyRstrip raw) "  stack:" = false →
       ¬ (instk = true ∧ pyStartsWith (pyRstrip raw) "    - " = true) →
       pline ⟨items, some r, instk⟩ raw =
         ⟨items,
          some (setAssoc r (pyStrip (pySplit1 (pyRstrip raw) ':').1)
            (Val.str (strip_quotes (pySplit1 (pyRstrip raw) ':').2))),
          false⟩)
    ∧ (pyStartsWith (pyRstrip raw) "- " = false →
       pyStartsWith (pyRstrip raw) "  " = false →
       pline ⟨items, some r, instk⟩ raw = ⟨items, some r, instk⟩) := by
  intro items r instk raw
  constructor
  · intro h2 h3 h4 h5 h6
    unfold pline
    rw [if_neg (by
      rintro (he | hc)
      · exact startsWith_two_ne_empty h2 he
      · rw [h4] at hc
        exact Bool.false_ne_true hc)]
    rw [if_neg (by rw [twoSpace_not_dash h2]; simp)]
    dsimp only
    rw [if_neg (by rw [h5]; simp), if_neg h6, if_pos ⟨h2, h3⟩]
  · intro hd hs
    unfold pline
    by_cases h1 : pyRstrip raw = "" ∨ pyStartsWith (pyLstrip (pyRstrip raw)) "#" = true
    · rw [if_pos h1]
    · rw [if_neg h1, if_neg (by rw [hd]; simp)]
      dsimp only
      rw [if_neg (by
            intro hx
            have h7 := stack_prefix_two hx
            simp [h7] at hs),
          if_neg (by
            intro hx
            have h7 := item_prefix_two hx.2
            simp [h7] at hs),
          if_neg (by
            intro hx
            simp [hx.1] at hs)]

/-- Claim C6 witness: the line `"  url: y"` sets the scalar field `url` and
closes the stack context, while the line `"plain"` (no leading spaces, no
record start) leaves the state unchanged. -/
theorem C6_witness :
    pline ⟨[], some [("name", Val.str "x")], true⟩ "  url: y" =
      ⟨[], some [("name", Val.str "x"), ("url", Val.str "y")], false⟩
  ∧ pline ⟨[], some [("name", Val.str "x")], true⟩ "plain" =
      ⟨[], some [("name", Val.str "x")], true⟩ := by
  have h := C6_amended_scalar_lines [] [("name", Val.str "x")] true "  url: y"
  have h2 := C6_amended_scalar_lines [] [("name", Val.str "x")] true "plain"
  exact ⟨(h.1 (by decide) (by decide) (by decide) (by decide) (by decide)).trans
      (by decide),
    h2.2 (by decide) (by decide)⟩

theorem pline_stack_item (items : List Rec) (r : Rec) (acc : List String)
    (v : String)
    (hr : pyRstrip ("    - " ++ v) = "    - " ++ v)
    (hg : getAssoc r "stack" = some (Val.seq acc)) :
    pline ⟨items, some r, true⟩ ("    - " ++ v) =
      (if strip_quotes v = "" then (⟨items, some r, true⟩ : PState)
       else ⟨items, some (setAssoc r "stack" (Val.seq (acc ++ [strip_quotes v]))),
             true⟩) := by
  obtain ⟨l⟩ := v
  have hne : ("    - " ++ (⟨l⟩ : String)) ≠ "" := by
    intro he
    have hdat := congrArg String.data he
    simp at hdat
  have hcomment : pyStartsWith (pyLstrip ("    - " ++ (⟨l⟩ : String))) "#" = false := rfl
  have hdash : pyStartsWith ("    - " ++ (⟨l⟩ : String)) "- " = false := rfl
  have hstack : pyStartsWith ("    - " ++ (⟨l⟩ : String)) "  stack:" = false := rfl
  have hitem : pyStartsWith ("    - " ++ (⟨l⟩ : String)) "    - " = true := rfl
  have hdrop : pyDrop ("    - " ++ (⟨l⟩ : String)) 6 = (⟨l⟩ : String) := rfl
  unfold pline
  rw [hr]
  rw [if_neg (by
    rintro (he | hc)
    · exact hne he
    · rw [hcomment] at hc
      exact Bool.false_ne_true hc)]
  rw [if_neg (by rw [hdash]; simp)]
  dsimp only
  rw [if_neg (by rw [hstack]; simp), if_pos ⟨rfl, hitem⟩, hdrop]
  by_cases he : strip_quotes (⟨l⟩ : String) = ""
  · rw [if_neg (by simp [he]), if_pos he]
  · rw [if_pos he, if_neg (by simp [he])]
    unfold appendStack
    rw [hg]

theorem setAssoc_setAssoc {β : Type} (m : List (String × β)) (k : String)
    (v w : β) : setAssoc (setAssoc m k v) k w = setAssoc m k w := by
  induction m with
  | nil => simp [setAssoc]
  | cons a rest ih =>
    obtain ⟨k₀, v₀⟩ := a
    by_cases h : k₀ = k <;> simp [setAssoc, h, ih]

theorem setAssoc_get_eq {β : Type} (m : List (String × β)) (k : String) (v : β)
    (h : getAssoc m k = some v) : setAssoc m k v = m := by
  induction m with
  | nil => simp [getAssoc] at h
  | cons a rest ih =>
    obtain ⟨k₀, v₀⟩ := a
    by_cases h₀ : k₀ = k
    · simp [getAssoc, h₀] at h
      simp [setAssoc, h₀, h]
    · simp [getAssoc, h₀] at h
      simp [setAssoc, h₀, ih h]

theorem setAssoc_ne_nil {β : Type} (m : List (String × β)) (k : String) (v : β) :
    setAssoc m k v ≠ [] := by
  cases m with
  | nil => simp [setAssoc]
  | cons a rest =>
    obtain ⟨k₀, v₀⟩ := a
    by_cases h : k₀ = k <;> simp [setAssoc, h]

theorem pline_stack_line (items : List Rec) (r : Rec) (instk : Bool) :
    pline ⟨items, some r, instk⟩ "  stack:" =
      ⟨items, some (setAssoc r "stack" (Val.seq [])), true⟩ := rfl

theorem foldl_stack_items (vs : List String) (items : List Rec) (r : Rec)
    (acc : List String)
    (hv : ∀ v ∈ vs, pyRstrip ("    - " ++ v) = "    - " ++ v)
    (hg : getAssoc r "stack" = some (Val.seq acc)) :
    List.foldl pline ⟨items, some r, true⟩ (vs.map (fun v => "    - " ++ v)) =
      ⟨items, some (setAssoc r "stack"
        (Val.seq (acc ++ (vs.map strip_quotes).filter (fun t => t ≠ "")))),
       true⟩ := by
  induction vs generalizing r acc with
  | nil =>
    simp only [List.map_nil, List.foldl_nil, List.filter_nil, List.append_nil]
    rw [setAssoc_get_eq r "stack" (Val.seq acc) hg]
  | cons v vs ih =>
    simp only [List.map_cons, List.foldl_cons]
    rw [pline_stack_item items r acc v (hv v (by simp)) hg]
    by_cases he : strip_quotes v = ""
    · rw [if_pos he, ih r acc (fun w hw => hv w (by simp [hw])) hg]
      simp [List.filter_cons, he]
    · rw [if_neg he,
        ih (setAssoc r "stack" (Val.seq (acc ++ [strip_quotes v])))
          (acc ++ [strip_quotes v]) (fun w hw => hv w (by simp [hw]))
          (getAssoc_setAssoc_self _ _ _),
        setAssoc_setAssoc]
      simp [List.filter_cons, he, List.append_assoc]

/-- Claim C9 counterexample: in a stack block the item line `    - ""` is of
the form `    - value`, but its quote-stripped value is empty and is
skipped, so the resulting `stack` is `["a"]` rather than one entry per item
line. -/
theorem C9_counterexample :
    parse_projects_yaml ["- name: x", "  stack:", "    - \"\"", "    - a"] =
      [[("name", Val.str "x"), ("stack", Val.seq ["a"])]]
  ∧ strip_quotes (pyDrop "    - \"\"" 6) = "" := by decide

/-- Claim C9 (amended): for every document prefix that leaves the parser in
a state with a current record — any preceding records and any fields already
on the current record — following it with a `  stack:` line and `    - value`
item lines makes `parse` emit the earlier records unchanged and give the
current record a `stack` field holding exactly the quote-stripped values in
file order, except that values which are empty after quote-stripping are
skipped. -/
theorem C9_amended_stack_items :
    ∀ (pre : List String) (items : List Rec) (r : Rec) (instk : Bool)
      (vs : List String),
      (∀ v ∈ vs, pyRstrip ("    - " ++ v) = "    - " ++ v) →
      List.foldl pline ⟨[], none, false⟩ pre = ⟨items, some r, instk⟩ →
      parse_projects_yaml
          (pre ++ "  stack:" :: vs.map (fun v => "    - " ++ v)) =
        items ++ [setAssoc r "stack"
          (Val.seq ((vs.map strip_quotes).filter (fun t => t ≠ "")))] := by
  intro pre items r instk vs hv hpre
  unfold parse_projects_yaml
  rw [List.foldl_append, hpre, List.foldl_cons, pline_stack_line,
      foldl_stack_items vs items (setAssoc r "stack" (Val.seq [])) [] hv
        (getAssoc_setAssoc_self _ _ _),
      setAssoc_setAssoc]
  simp only [flushItems]
  rw [if_pos (setAssoc_ne_nil _ _ _)]
  simp

/-- Claim C9 witness: a document with a preceding record and preceding
fields on the current record, then a stack block with items `a` and `b`,
yields `stack = ["a", "b"]` in order on that record, everything else kept. -/
theorem C9_witness :
    parse_projects_yaml
      ["- name: y", "- name: x", "  url: u", "  stack:", "    - a", "    - b"] =
      [[("name", Val.str "y")],
       [("name", Val.str "x"), ("url", Val.str "u"),
        ("stack", Val.seq ["a", "b"])]] := by
  have h := C9_amended_stack_items ["- name: y", "- name: x", "  url: u"]
    [[("name", Val.str "y")]] [("name", Val.str "x"), ("url", Val.str "u")]
    false ["a", "b"] (by decide) (by decide)
  have e : (["- name: y", "- name: x", "  url: u"] ++ "  stack:" ::
      (["a", "b"].map (fun v => "    - " ++ v))) =
      ["- name: y", "- name: x", "  url: u", "  stack:", "    - a", "    - b"] := by
    decide
  rw [e] at h
  exact h.trans (by decide)
